import Mathlib

/-!
# Shallow embedding of the HFT matching engine core

This file embeds, in Lean 4, the core of the Statistical-Arbitrage-Tool
repository: the single-symbol limit-order matching engine (`OrderBook` in
`src/order_book.cpp` / `include/core/order_book.h`), the shared-memory trade
ring (`SharedTrades` in `include/core/shared_memory_manager.h`), and the
telemetry collector (`MetricsCollector` in `src/metrics_collector.cpp`),
and proves or refutes the specification's claims about them.

Modelling conventions:
* `Price` (`int64_t`) is `Int`; `Quantity` (`uint32_t`), `OrderId`
  (`uint64_t`) and nanosecond timestamps are `Nat`.  No operation the
  claims touch can overflow or underflow its fixed-width type (quantity
  decrements are by `min` of the two quantities, ring indices stay below
  the capacity), so the `% 2^w` wrap is omitted.
* `std::map<Price, OrderBookEntry, std::greater<Price>>` (bids) and
  `std::map<Price, OrderBookEntry>` (asks) are embedded as price-sorted
  lists of levels, descending for bids and ascending for asks.
* `std::unordered_map<OrderId, Order>` (`order_lookup_`) is embedded as a
  function `Nat → Option Order`; `m[k] = v` is pointwise update and
  `m.erase(k)` is pointwise removal, matching the map's extensional
  behaviour (an `unordered_map` has no meaningful iteration order).
* The trade callback is embedded by returning the list of emitted trades.
* Wall-clock reads (`high_resolution_clock::now()`) become an explicit
  `now : Nat` argument to the operations that perform them.
-/

namespace HFT

/-- `OrderSide` from `include/core/types.h`. -/
inductive OrderSide where
  | BUY
  | SELL
deriving DecidableEq, Repr

/-- `OrderType` from `include/core/types.h`. -/
inductive OrderType where
  | MARKET
  | LIMIT
  | STOP
deriving DecidableEq, Repr

/-- `Order` from `include/core/types.h` (the fixed 16-byte `char symbol[16]`
is modelled as a `String`; no claim depends on the truncation). -/
structure Order where
  id : Nat
  price : Int
  quantity : Nat
  side : OrderSide
  type : OrderType
  timestamp : Nat
  symbol : String
deriving DecidableEq, Repr

/-- `Trade` from `include/core/types.h`. -/
structure Trade where
  buy_order_id : Nat
  sell_order_id : Nat
  price : Int
  quantity : Nat
  timestamp : Nat
  symbol : String
deriving DecidableEq, Repr

/-- `OrderBook::OrderBookEntry` from `include/core/order_book.h`:
a price level holding a FIFO vector of orders. -/
structure OrderBookEntry where
  price : Int
  total_quantity : Nat
  orders : List Order
deriving DecidableEq, Repr

/-- The `OrderBook` state: `bids_` (price-descending level list), `asks_`
(price-ascending level list) and `order_lookup_` (extensional map). -/
structure Book where
  symbol : String
  bids : List OrderBookEntry
  asks : List OrderBookEntry
  order_lookup : Nat → Option Order

/-- A fresh `OrderBook(symbol)`: both sides and the lookup are empty. -/
def emptyBook (sym : String) : Book :=
  { symbol := sym, bids := [], asks := [], order_lookup := fun _ => none }

/-- `order_lookup_[o.id] = o` (insert-or-assign of `std::unordered_map`). -/
def insertLookup (m : Nat → Option Order) (o : Order) : Nat → Option Order :=
  fun i => if i = o.id then some o else m i

/-- `order_lookup_.erase(id)`. -/
def eraseLookup (m : Nat → Option Order) (id : Nat) : Nat → Option Order :=
  fun i => if i = id then none else m i

/-- Ordering predicate of the bid map's comparator `std::greater<Price>`:
a new key `a` is placed before an existing key `b` iff `a > b`. -/
def bidBefore (a b : Int) : Bool := b < a

/-- Ordering predicate of the ask map's default comparator `std::less<Price>`. -/
def askBefore (a b : Int) : Bool := a < b

/-- The level-insertion part of `OrderBook::add_order`:
`auto& entry = side[order.price]; if (entry.orders.empty()) entry =
OrderBookEntry(order.price); entry.orders.push_back(order);
entry.total_quantity += order.quantity;` on a price-sorted level list. -/
def insertLevel (before : Int → Int → Bool) (o : Order) :
    List OrderBookEntry → List OrderBookEntry
  | [] => [⟨o.price, 0 + o.quantity, [o]⟩]
  | e :: rest =>
    if e.price = o.price then
      (if e.orders.isEmpty then ⟨o.price, 0 + o.quantity, [o]⟩
       else ⟨e.price, e.total_quantity + o.quantity, e.orders ++ [o]⟩) :: rest
    else if before o.price e.price then
      ⟨o.price, 0 + o.quantity, [o]⟩ :: e :: rest
    else
      e :: insertLevel before o rest

/-- One iteration of the `while` loop of `OrderBook::match_orders`
(`src/order_book.cpp`).  Returns `none` when the loop would stop.
`front()` on an empty level vector is undefined behaviour in the source;
levels are nonempty in every reachable state (proved below), and the
model stops there. -/
def matchStep (now : Nat) (b : Book) : Option (Book × Trade) :=
  match b.bids, b.asks with
  | best_bid :: bidRest, best_ask :: askRest =>
    if best_bid.price < best_ask.price then none
    else
      match best_bid.orders, best_ask.orders with
      | buy_order :: buyRest, sell_order :: sellRest =>
        let trade_price :=
          if buy_order.timestamp < sell_order.timestamp then buy_order.price
          else sell_order.price
        let trade_quantity := min buy_order.quantity sell_order.quantity
        let trade : Trade :=
          ⟨buy_order.id, sell_order.id, trade_price, trade_quantity, now, b.symbol⟩
        let buyQ := buy_order.quantity - trade_quantity
        let sellQ := sell_order.quantity - trade_quantity
        let bids1 :=
          if buyQ = 0 then
            (if buyRest = [] then bidRest
             else ⟨best_bid.price, best_bid.total_quantity - trade_quantity, buyRest⟩ :: bidRest)
          else
            ⟨best_bid.price, best_bid.total_quantity - trade_quantity,
              {buy_order with quantity := buyQ} :: buyRest⟩ :: bidRest
        let lk1 :=
          if buyQ = 0 then eraseLookup b.order_lookup buy_order.id else b.order_lookup
        let asks1 :=
          if sellQ = 0 then
            (if sellRest = [] then askRest
             else ⟨best_ask.price, best_ask.total_quantity - trade_quantity, sellRest⟩ :: askRest)
          else
            ⟨best_ask.price, best_ask.total_quantity - trade_quantity,
              {sell_order with quantity := sellQ} :: sellRest⟩ :: askRest
        let lk2 := if sellQ = 0 then eraseLookup lk1 sell_order.id else lk1
        some ({ b with bids := bids1, asks := asks1, order_lookup := lk2 }, trade)
      | _, _ => none
  | _, _ => none

/-- Number of resting orders on a side. -/
def sideOrders (ls : List OrderBookEntry) : Nat :=
  (ls.map (fun e => e.orders.length)).sum

/-- Number of resting orders in the book; strictly decreases at every
match iteration, bounding the loop of `match_orders`. -/
def totalOrders (b : Book) : Nat := sideOrders b.bids + sideOrders b.asks

/-- `match_orders` iterated with explicit fuel (structural recursion so
that concrete books evaluate in the kernel).  `matchOrders` supplies
fuel `totalOrders b`, which is shown sufficient below. -/
def matchOrdersFuel : Nat → Nat → Book → Book × List Trade
  | 0, _, b => (b, [])
  | fuel + 1, now, b =>
    match matchStep now b with
    | none => (b, [])
    | some (b', t) =>
      let r := matchOrdersFuel fuel now b'
      (r.1, t :: r.2)

/-- `OrderBook::match_orders`: run the matching loop to fixpoint.
Each iteration removes at least one fully filled order, so
`totalOrders b` steps always reach the fixpoint (proved below). -/
def matchOrders (now : Nat) (b : Book) : Book × List Trade :=
  matchOrdersFuel (totalOrders b) now b

/-- `OrderBook::add_order`: record the order in `order_lookup_`, insert it
into its side at its price, then run the matcher.  The source performs no
duplicate-id check; a resubmitted id silently overwrites the lookup entry
and inserts a second copy into the book.  `now` is the wall-clock time
stamped on emitted trades. -/
def addOrder (now : Nat) (o : Order) (b : Book) : Book × List Trade :=
  if o.side = OrderSide.BUY then
    matchOrders now
      { b with order_lookup := insertLookup b.order_lookup o,
               bids := insertLevel bidBefore o b.bids }
  else
    matchOrders now
      { b with order_lookup := insertLookup b.order_lookup o,
               asks := insertLevel askBefore o b.asks }

/-- The order-vector part of `OrderBook::remove_order_from_book`:
`find_if` by id, then `erase`; returns the removed order (whose stored
quantity is subtracted from the level total) and the remaining vector. -/
def removeOrderFromOrders (id : Nat) : List Order → Option (Order × List Order)
  | [] => none
  | o :: rest =>
    if o.id = id then some (o, rest)
    else
      match removeOrderFromOrders id rest with
      | none => none
      | some (f, rest') => some (f, o :: rest')

/-- The per-side part of `OrderBook::remove_order_from_book`: find the
level at `ord.price`, remove the first order with `ord.id` from it,
erase the level if it became empty. -/
def removeOrderFromLevels (ord : Order) : List OrderBookEntry → List OrderBookEntry
  | [] => []
  | e :: rest =>
    if e.price = ord.price then
      match removeOrderFromOrders ord.id e.orders with
      | none => e :: rest
      | some (f, os') =>
        if os' = [] then rest
        else ⟨e.price, e.total_quantity - f.quantity, os'⟩ :: rest
    else e :: removeOrderFromLevels ord rest

/-- `OrderBook::remove_order_from_book`. -/
def removeOrderFromBook (ord : Order) (b : Book) : Book :=
  if ord.side = OrderSide.BUY then
    { b with bids := removeOrderFromLevels ord b.bids }
  else
    { b with asks := removeOrderFromLevels ord b.asks }

/-- `OrderBook::cancel_order`: look the id up; if live, remove the stored
copy from its side and erase the lookup entry.  No matching is run and no
trade is emitted. -/
def cancelOrder (id : Nat) (b : Book) : Book :=
  match b.order_lookup id with
  | none => b
  | some o =>
    let b1 := removeOrderFromBook o b
    { b1 with order_lookup := eraseLookup b1.order_lookup id }

/-- `OrderBook::modify_order`: if the id is live, remove the stored copy
from the book, rebuild it with the new price, new quantity and a fresh
timestamp (`now`), and re-add it (which reruns the matcher).  Unknown
ids are a no-op. -/
def modifyOrder (now : Nat) (id : Nat) (new_price : Int) (new_quantity : Nat)
    (b : Book) : Book × List Trade :=
  match b.order_lookup id with
  | none => (b, [])
  | some old_order =>
    let b1 := removeOrderFromBook old_order b
    let new_order :=
      { old_order with price := new_price, quantity := new_quantity, timestamp := now }
    addOrder now new_order b1

/-- One externally driven engine operation (the public mutating API of
`OrderBook`), with the wall-clock instant at which it runs. -/
inductive Op where
  | add (now : Nat) (o : Order)
  | cancel (id : Nat)
  | modify (now : Nat) (id : Nat) (new_price : Int) (new_quantity : Nat)

/-- Apply one operation, returning the new book and the emitted trades
(`cancel_order` never calls `match_orders`, hence never emits). -/
def applyOpTr (op : Op) (b : Book) : Book × List Trade :=
  match op with
  | .add now o => addOrder now o b
  | .cancel id => (cancelOrder id b, [])
  | .modify now id p q => modifyOrder now id p q b

/-- Apply one operation, keeping only the book. -/
def applyOp (op : Op) (b : Book) : Book := (applyOpTr op b).1

/-- Apply a sequence of operations from left to right. -/
def applyOps (ops : List Op) (b : Book) : Book :=
  ops.foldl (fun b op => applyOp op b) b

/-! ## Book predicates -/

/-- The bid map's key order: strictly descending prices
(`std::map` with `std::greater<Price>`). -/
def SortedBids (ls : List OrderBookEntry) : Prop :=
  ls.Pairwise (fun a b => b.price < a.price)

/-- The ask map's key order: strictly ascending prices. -/
def SortedAsks (ls : List OrderBookEntry) : Prop :=
  ls.Pairwise (fun a b => a.price < b.price)

/-- Every existing price level holds at least one order (empty levels are
erased by `match_orders` and `remove_order_from_book` as soon as they
arise). -/
def LevelsNonempty (ls : List OrderBookEntry) : Prop :=
  ∀ e ∈ ls, e.orders ≠ []

/-- Structural well-formedness of the book: both sides sorted as their
map comparators dictate, and no empty levels. -/
def WF (b : Book) : Prop :=
  SortedBids b.bids ∧ SortedAsks b.asks ∧
    LevelsNonempty b.bids ∧ LevelsNonempty b.asks

/-- Quiescence: no bid level's price reaches any ask level's price. -/
def Quiescent (b : Book) : Prop :=
  ∀ bb ∈ b.bids, ∀ ba ∈ b.asks, bb.price < ba.price

/-- The actual run of the matching loop: for each executed iteration,
the book it acted on paired with the trade it emitted.
`matchTrace (totalOrders b) now b` is the complete sequence of matches
`match_orders` executes on `b`, in order. -/
def matchTrace : Nat → Nat → Book → List (Book × Trade)
  | 0, _, _ => []
  | fuel + 1, now, b =>
    match matchStep now b with
    | none => []
    | some (b', t) => (b, t) :: matchTrace fuel now b'

/-- A concrete crossed book whose two front orders carry *equal* arrival
timestamps (both 5): Buy(id=1, price=101) resting against
Sell(id=2, price=100). -/
def tieBook : Book :=
  ⟨"BTCUSD",
    [⟨101, 5, [⟨1, 101, 5, OrderSide.BUY, OrderType.LIMIT, 5, "BTCUSD"⟩]⟩],
    [⟨100, 5, [⟨2, 100, 5, OrderSide.SELL, OrderType.LIMIT, 5, "BTCUSD"⟩]⟩],
    fun _ => none⟩

/-- The single trade the engine executes on `tieBook`: priced at 100,
the Sell order's price. -/
def tieTrade : Trade := ⟨1, 2, 100, 5, 7, "BTCUSD"⟩

/-! ## Type-erasure for the market-order claim

`add_order`, `match_orders`, `cancel_order` and `modify_order` never read
`Order::type`; `stripType` replaces every stored order's type by `LIMIT`
so that "a `MARKET` order is processed exactly like a `LIMIT` order" can
be stated as equality of stripped results. -/

/-- Replace an order's type by `LIMIT`, keeping every other field. -/
def stripType (o : Order) : Order := { o with type := OrderType.LIMIT }

/-- Strip every order in a price level. -/
def stripEntry (e : OrderBookEntry) : OrderBookEntry :=
  { e with orders := e.orders.map stripType }

/-- Strip every order stored anywhere in the book. -/
def stripBook (b : Book) : Book :=
  { b with bids := b.bids.map stripEntry, asks := b.asks.map stripEntry,
           order_lookup := fun i => (b.order_lookup i).map stripType }

/-! ## Shared-memory trade ring (`SharedTrades`) -/

/-- `SharedTrades::MAX_TRADES` from `include/core/shared_memory_manager.h`. -/
def MAX_TRADES : Nat := 1000

/-- A `Trade` value for unwritten ring slots (`std::array` elements are
value-initialised by the placement-`new T()` in `create`). -/
def zeroTrade : Trade := ⟨0, 0, 0, 0, 0, ""⟩

/-- The `SharedTrades` ring state.  The source fixes `cap = MAX_TRADES`;
the capacity is a field so that the spec's capacity-4 scenario can be
stated about the same push/pop algorithm.  `head`/`tail` are the `u32`
indices, always `< cap`. -/
structure Ring where
  cap : Nat
  head : Nat
  tail : Nat
  entries : List Trade
deriving DecidableEq, Repr

/-- An empty ring of capacity `cap` (zeroed region, `head = tail = 0`). -/
def emptyRing (cap : Nat) : Ring :=
  { cap := cap, head := 0, tail := 0, entries := List.replicate cap zeroTrade }

/-- The engine's `/hft_trades` region as created: `MAX_TRADES` entries. -/
def initSharedTrades : Ring := emptyRing MAX_TRADES

/-- `SharedTrades::push`: drop-newest bounded push.  Returns the new state
and the `bool` result. -/
def Ring.push (s : Ring) (t : Trade) : Ring × Bool :=
  let next_tail := (s.tail + 1) % s.cap
  if next_tail = s.head then (s, false)
  else ({ s with entries := s.entries.set s.tail t, tail := next_tail }, true)

/-- `SharedTrades::pop`: returns the popped trade (the out-parameter) as
an `Option` alongside the new state. -/
def Ring.pop (s : Ring) : Ring × Option Trade :=
  if s.head = s.tail then (s, none)
  else ({ s with head := (s.head + 1) % s.cap }, some (s.entries.getD s.head zeroTrade))

/-- Push a list of trades in order, collecting each push's result. -/
def Ring.pushAll (s : Ring) (ts : List Trade) : Ring × List Bool :=
  match ts with
  | [] => (s, [])
  | t :: rest =>
    let r1 := s.push t
    let r2 := r1.1.pushAll rest
    (r2.1, r1.2 :: r2.2)

/-- Pop `n` times in sequence, collecting each pop's result. -/
def Ring.popN (s : Ring) : Nat → Ring × List (Option Trade)
  | 0 => (s, [])
  | n + 1 =>
    let r1 := s.pop
    let r2 := r1.1.popN n
    (r2.1, r1.2 :: r2.2)

/-! ## Telemetry collector (`MetricsCollector`) -/

/-- `MetricsCollector::HISTOGRAM_BUCKETS`. -/
def HISTOGRAM_BUCKETS : Nat := 50

/-- `MetricsCollector::MAX_LATENCY_NS` (1 ms). -/
def MAX_LATENCY_NS : Nat := 1000000

/-- `UINT64_MAX`, the sentinel initial value of `min_latency_ns_`. -/
def UINT64_MAX : Nat := 2 ^ 64 - 1

/-- The accumulator state of `MetricsCollector` (the atomics, embedded
sequentially: the compare-exchange min/max loops implement
`min := min min ns` / `max := max max ns`). -/
structure MetricsState where
  orders_processed : Nat
  trades_executed : Nat
  total_latency_ns : Nat
  min_latency_ns : Nat
  max_latency_ns : Nat
  latency_samples : Nat
  latency_histogram : List Nat
deriving DecidableEq, Repr

/-- `MetricsCollector::MetricsCollector()`: counters zero, min at the
`UINT64_MAX` sentinel, all histogram buckets zero. -/
def initMetrics : MetricsState :=
  { orders_processed := 0, trades_executed := 0, total_latency_ns := 0,
    min_latency_ns := UINT64_MAX, max_latency_ns := 0, latency_samples := 0,
    latency_histogram := List.replicate HISTOGRAM_BUCKETS 0 }

/-- `MetricsCollector::record_latency`. -/
def record_latency (latency_ns : Nat) (s : MetricsState) : MetricsState :=
  let bucket :=
    if latency_ns < MAX_LATENCY_NS then
      let b := (latency_ns * HISTOGRAM_BUCKETS) / MAX_LATENCY_NS
      if b ≥ HISTOGRAM_BUCKETS then HISTOGRAM_BUCKETS - 1 else b
    else HISTOGRAM_BUCKETS - 1
  { s with
    total_latency_ns := s.total_latency_ns + latency_ns,
    latency_samples := s.latency_samples + 1,
    min_latency_ns := if latency_ns < s.min_latency_ns then latency_ns else s.min_latency_ns,
    max_latency_ns := if latency_ns > s.max_latency_ns then latency_ns else s.max_latency_ns,
    latency_histogram :=
      s.latency_histogram.set bucket (s.latency_histogram.getD bucket 0 + 1) }

/-- `SystemMetrics` from `include/core/types.h`.  `cpu_usage` is a
`double` in the source but always holds the integral tenths-of-a-percent
value produced by `get_cpu_usage`, so it is embedded as `Nat`. -/
structure SystemMetrics where
  timestamp : Nat
  cpu_usage : Nat
  memory_usage_bytes : Nat
  network_bytes_sent : Nat
  network_bytes_recv : Nat
  orders_processed : Nat
  trades_executed : Nat
  avg_latency_ns : Nat
  max_latency_ns : Nat
  min_latency_ns : Nat
deriving DecidableEq, Repr

/-- `MetricsCollector::get_current_metrics`.  The wall clock and the
`/proc` host probes (`get_cpu_usage`, `get_memory_usage`,
`get_network_stats`) are external inputs and enter as parameters. -/
def get_current_metrics (now cpu mem net_sent net_recv : Nat)
    (s : MetricsState) : SystemMetrics :=
  { timestamp := now, cpu_usage := cpu, memory_usage_bytes := mem,
    network_bytes_sent := net_sent, network_bytes_recv := net_recv,
    orders_processed := s.orders_processed,
    trades_executed := s.trades_executed,
    avg_latency_ns :=
      if s.latency_samples > 0 then s.total_latency_ns / s.latency_samples else 0,
    min_latency_ns := if s.latency_samples > 0 then s.min_latency_ns else 0,
    max_latency_ns := if s.latency_samples > 0 then s.max_latency_ns else 0 }

/-! ## Theorems -/

/-- The histogram bucket computed by `record_latency` is
`min 49 (ns * 50 / 1_000_000)`. -/
theorem record_latency_bucket_eq (ns : Nat) :
    (if ns < MAX_LATENCY_NS then
       if (ns * HISTOGRAM_BUCKETS) / MAX_LATENCY_NS ≥ HISTOGRAM_BUCKETS then
         HISTOGRAM_BUCKETS - 1
       else (ns * HISTOGRAM_BUCKETS) / MAX_LATENCY_NS
     else HISTOGRAM_BUCKETS - 1) = min 49 (ns * 50 / 1000000) := by
  simp only [MAX_LATENCY_NS, HISTOGRAM_BUCKETS]
  split_ifs <;> omega

/-- C9: `record_latency(ns)` increments exactly the bucket with index
`min 49 (ns * 50 / 1_000_000)` of the 50-bucket histogram covering
`[0, 1_000_000)` ns, and every sample of at least 1 ms lands in the last
bucket (index 49). -/
theorem C9_record_latency_bucket (ns : Nat) (s : MetricsState) :
    (record_latency ns s).latency_histogram =
      s.latency_histogram.set (min 49 (ns * 50 / 1000000))
        (s.latency_histogram.getD (min 49 (ns * 50 / 1000000)) 0 + 1) ∧
    (1000000 ≤ ns → min 49 (ns * 50 / 1000000) = 49) := by
  constructor
  · simp only [record_latency, record_latency_bucket_eq]
  · intro h
    have : 50 ≤ ns * 50 / 1000000 := by omega
    omega

/-- Witness for C9 at a concrete ≥ 1 ms sample. -/
theorem C9_witness :
    (1000000 ≤ 2500000 ∧ min 49 (2500000 * 50 / 1000000) = 49) ∧
    (record_latency 2500000 initMetrics).latency_histogram =
      initMetrics.latency_histogram.set (min 49 (2500000 * 50 / 1000000))
        (initMetrics.latency_histogram.getD (min 49 (2500000 * 50 / 1000000)) 0 + 1) :=
  ⟨⟨by decide, (C9_record_latency_bucket 2500000 initMetrics).2 (by decide)⟩,
    (C9_record_latency_bucket 2500000 initMetrics).1⟩

/-- C10: with zero recorded samples, `get_current_metrics` reports 0 for
the average, minimum and maximum latency; the `UINT64_MAX` sentinel held
by the internal minimum accumulator (its initial value) is not exposed. -/
theorem C10_zero_samples_metrics (now cpu mem net_sent net_recv : Nat)
    (s : MetricsState) (h : s.latency_samples = 0) :
    (get_current_metrics now cpu mem net_sent net_recv s).avg_latency_ns = 0 ∧
    (get_current_metrics now cpu mem net_sent net_recv s).min_latency_ns = 0 ∧
    (get_current_metrics now cpu mem net_sent net_recv s).max_latency_ns = 0 ∧
    initMetrics.min_latency_ns = UINT64_MAX := by
  simp [get_current_metrics, h, initMetrics]

/-- Witness for C10 at the freshly constructed collector state. -/
theorem C10_witness :
    initMetrics.latency_samples = 0 ∧
    (get_current_metrics 3 4 5 6 7 initMetrics).min_latency_ns = 0 :=
  ⟨by decide, (C10_zero_samples_metrics 3 4 5 6 7 initMetrics (by decide)).2.1⟩

/-- C6 counterexample: the trade ring created for `/hft_trades` does not
have 1024 entries — `SharedTrades::MAX_TRADES` is 1000. -/
theorem C6_counterexample_capacity :
    initSharedTrades.cap ≠ 1024 ∧ initSharedTrades.entries.length ≠ 1024 := by
  have h : initSharedTrades.entries.length = 1000 := by
    rw [show initSharedTrades.entries = List.replicate 1000 zeroTrade from rfl,
      List.length_replicate]
  refine ⟨by decide, ?_⟩
  omega

/-- C6 (amended): the trade ring in the shared-memory wire format has a
fixed capacity of 1000 `Trade` entries. -/
theorem C6_capacity_1000 :
    MAX_TRADES = 1000 ∧ initSharedTrades.cap = 1000 ∧
      initSharedTrades.entries.length = 1000 := by
  refine ⟨rfl, rfl, ?_⟩
  rw [show initSharedTrades.entries = List.replicate 1000 zeroTrade from rfl,
    List.length_replicate]

/-- C5 counterexample: with ring capacity 4 and no consumer, six pushes
let only three trades in (`push` keeps one slot empty: it reports full as
soon as `(tail+1) % cap == head`), so the fourth pop already fails —
"exactly 4 pops succeed" is false. -/
theorem C5_counterexample_four_pops :
    (((emptyRing 4).pushAll
        [⟨1, 1, 1, 1, 1, "A"⟩, ⟨2, 2, 2, 2, 2, "A"⟩, ⟨3, 3, 3, 3, 3, "A"⟩,
         ⟨4, 4, 4, 4, 4, "A"⟩, ⟨5, 5, 5, 5, 5, "A"⟩, ⟨6, 6, 6, 6, 6, "A"⟩]).1.popN 4).2
      = [some ⟨1, 1, 1, 1, 1, "A"⟩, some ⟨2, 2, 2, 2, 2, "A"⟩,
         some ⟨3, 3, 3, 3, 3, "A"⟩, none] := by
  decide

/-- C5 (amended): when the ring is full (`(tail+1) % cap == head`),
`push` returns false and leaves the state — hence all stored entries —
unchanged (drop-newest); for a ring of capacity 4 with no consumer, after
6 consecutive pushes the first 3 pushes succeed and the rest are dropped,
and exactly 3 pops succeed, returning the earliest 3 trades in FIFO push
order. -/
theorem C5_ring_drop_newest :
    (∀ (s : Ring) (t : Trade), (s.tail + 1) % s.cap = s.head → s.push t = (s, false)) ∧
    ((emptyRing 4).pushAll
        [⟨1, 1, 1, 1, 1, "A"⟩, ⟨2, 2, 2, 2, 2, "A"⟩, ⟨3, 3, 3, 3, 3, "A"⟩,
         ⟨4, 4, 4, 4, 4, "A"⟩, ⟨5, 5, 5, 5, 5, "A"⟩, ⟨6, 6, 6, 6, 6, "A"⟩]).2
      = [true, true, true, false, false, false] ∧
    (((emptyRing 4).pushAll
        [⟨1, 1, 1, 1, 1, "A"⟩, ⟨2, 2, 2, 2, 2, "A"⟩, ⟨3, 3, 3, 3, 3, "A"⟩,
         ⟨4, 4, 4, 4, 4, "A"⟩, ⟨5, 5, 5, 5, 5, "A"⟩, ⟨6, 6, 6, 6, 6, "A"⟩]).1.popN 6).2
      = [some ⟨1, 1, 1, 1, 1, "A"⟩, some ⟨2, 2, 2, 2, 2, "A"⟩,
         some ⟨3, 3, 3, 3, 3, "A"⟩, none, none, none] := by
  refine ⟨?_, by decide, by decide⟩
  intro s t h
  simp [Ring.push, h]

/-- Witness for C5 at a concrete full ring. -/
theorem C5_witness :
    ((3 : Nat) + 1) % 4 = 0 ∧
    (Ring.push ⟨4, 0, 3, List.replicate 4 zeroTrade⟩ ⟨9, 9, 9, 9, 9, "A"⟩
      = (⟨4, 0, 3, List.replicate 4 zeroTrade⟩, false)) :=
  ⟨by decide, C5_ring_drop_newest.1 ⟨4, 0, 3, List.replicate 4 zeroTrade⟩
      ⟨9, 9, 9, 9, 9, "A"⟩ (by decide)⟩

/-- C2 (code evaluation at the failing input): `add_order` performs no
duplicate-id check.  Re-adding id 1 (now as a Buy at 9000) silently
overwrites the `order_lookup_` entry and inserts a second resting copy of
id 1 into the book — two bid levels each hold an order with id 1, and no
error is surfaced (the function has no error channel at all). -/
theorem C2_duplicate_id_not_rejected :
    (addOrder 2 ⟨1, 9000, 3, OrderSide.BUY, OrderType.LIMIT, 2, "BTCUSD"⟩
        (addOrder 1 ⟨1, 10000, 5, OrderSide.BUY, OrderType.LIMIT, 1, "BTCUSD"⟩
          (emptyBook "BTCUSD")).1).1.order_lookup 1
      = some ⟨1, 9000, 3, OrderSide.BUY, OrderType.LIMIT, 2, "BTCUSD"⟩ ∧
    (addOrder 2 ⟨1, 9000, 3, OrderSide.BUY, OrderType.LIMIT, 2, "BTCUSD"⟩
        (addOrder 1 ⟨1, 10000, 5, OrderSide.BUY, OrderType.LIMIT, 1, "BTCUSD"⟩
          (emptyBook "BTCUSD")).1).1.bids
      = [⟨10000, 5, [⟨1, 10000, 5, OrderSide.BUY, OrderType.LIMIT, 1, "BTCUSD"⟩]⟩,
         ⟨9000, 3, [⟨1, 9000, 3, OrderSide.BUY, OrderType.LIMIT, 2, "BTCUSD"⟩]⟩] := by
  constructor <;> decide

/-- C8: `cancel_order` is a no-op on a non-live id, always leaves the id
non-live, is idempotent, and never emits a trade (it never calls
`match_orders`). -/
theorem C8_cancel_idempotent (id : Nat) (b : Book) :
    (b.order_lookup id = none → cancelOrder id b = b) ∧
    (cancelOrder id b).order_lookup id = none ∧
    cancelOrder id (cancelOrder id b) = cancelOrder id b ∧
    (applyOpTr (Op.cancel id) b).2 = [] := by
  refine ⟨?_, ?_, ?_, rfl⟩
  · intro h
    simp [cancelOrder, h]
  · cases h : b.order_lookup id with
    | none => simp [cancelOrder, h]
    | some o => simp [cancelOrder, h, eraseLookup]
  · have h2 : (cancelOrder id b).order_lookup id = none := by
      cases h : b.order_lookup id with
      | none => simp [cancelOrder, h]
      | some o => simp [cancelOrder, h, eraseLookup]
    set c := cancelOrder id b with hc
    simp [cancelOrder, h2]

/-- Witness for C8 at the empty book (id 9 is not live). -/
theorem C8_witness :
    cancelOrder 9 (emptyBook "BTCUSD") = emptyBook "BTCUSD" :=
  (C8_cancel_idempotent 9 (emptyBook "BTCUSD")).1 rfl

/-- C1 counterexample: two crossing orders with *equal* arrival
timestamps (both 5) — Buy(id=1, price=101) and Sell(id=2, price=100).
The engine prices the trade at 100, the *Sell* order's price
(`buy.timestamp < sell.timestamp` is false on a tie, so the else branch
picks `sell_order.price`), not the Buy order's 101 as the claim states. -/
theorem C1_counterexample_tie_uses_sell_price :
    (addOrder 7 ⟨2, 100, 5, OrderSide.SELL, OrderType.LIMIT, 5, "BTCUSD"⟩
        (addOrder 5 ⟨1, 101, 5, OrderSide.BUY, OrderType.LIMIT, 5, "BTCUSD"⟩
          (emptyBook "BTCUSD")).1).2
      = [⟨1, 2, 100, 5, 7, "BTCUSD"⟩] := by
  decide

/-! ### Level-insertion lemmas -/

/-- Every level produced by `insertLevel` carries either the inserted
order's price or a price already present. -/
theorem insertLevel_price_mem (before : Int → Int → Bool) (o : Order) :
    ∀ ls : List OrderBookEntry, ∀ x ∈ insertLevel before o ls,
      x.price = o.price ∨ x.price ∈ ls.map (fun e => e.price)
  | [], x, hx => by
    simp only [insertLevel, List.mem_singleton] at hx
    subst hx
    exact Or.inl rfl
  | e :: rest, x, hx => by
    simp only [insertLevel] at hx
    by_cases h1 : e.price = o.price
    · rw [if_pos h1] at hx
      rcases List.mem_cons.1 hx with h | h
      · subst h
        by_cases h2 : e.orders.isEmpty = true
        · rw [if_pos h2]
          exact Or.inl rfl
        · rw [if_neg h2]
          exact Or.inl h1
      · exact Or.inr (List.mem_map.2 ⟨x, List.mem_cons.2 (Or.inr h), rfl⟩)
    · rw [if_neg h1] at hx
      by_cases h2 : before o.price e.price = true
      · rw [if_pos h2] at hx
        rcases List.mem_cons.1 hx with h | h
        · subst h
          exact Or.inl rfl
        · exact Or.inr (List.mem_map.2 ⟨x, h, rfl⟩)
      · rw [if_neg h2] at hx
        rcases List.mem_cons.1 hx with h | h
        · subst h
          exact Or.inr (List.mem_map.2 ⟨x, List.mem_cons_self x rest, rfl⟩)
        · rcases insertLevel_price_mem before o rest x h with h' | h'
          · exact Or.inl h'
          · obtain ⟨z, hz, hzp⟩ := List.mem_map.1 h'
            exact Or.inr (List.mem_map.2 ⟨z, List.mem_cons.2 (Or.inr hz), hzp⟩)

/-- `insertLevel` never creates an empty level. -/
theorem insertLevel_nonempty (before : Int → Int → Bool) (o : Order) :
    ∀ ls : List OrderBookEntry, (∀ e ∈ ls, e.orders ≠ []) →
      ∀ x ∈ insertLevel before o ls, x.orders ≠ []
  | [], _, x, hx => by
    simp only [insertLevel, List.mem_singleton] at hx
    subst hx
    simp
  | e :: rest, hls, x, hx => by
    simp only [insertLevel] at hx
    by_cases h1 : e.price = o.price
    · rw [if_pos h1] at hx
      rcases List.mem_cons.1 hx with h | h
      · subst h
        by_cases h2 : e.orders.isEmpty = true
        · rw [if_pos h2]
          simp
        · rw [if_neg h2]
          simp
      · exact hls x (List.mem_cons.2 (Or.inr h))
    · rw [if_neg h1] at hx
      by_cases h2 : before o.price e.price = true
      · rw [if_pos h2] at hx
        rcases List.mem_cons.1 hx with h | h
        · subst h
          simp
        · exact hls x h
      · rw [if_neg h2] at hx
        rcases List.mem_cons.1 hx with h | h
        · exact hls x (h ▸ List.mem_cons_self e rest)
        · exact insertLevel_nonempty before o rest
            (fun y hy => hls y (List.mem_cons.2 (Or.inr hy))) x h

/-- `insertLevel` with the bid comparator preserves the strictly
descending price order. -/
theorem insertLevel_sorted_bids (o : Order) :
    ∀ ls : List OrderBookEntry, SortedBids ls →
      SortedBids (insertLevel bidBefore o ls)
  | [], _ => by simp [insertLevel, SortedBids]
  | e :: rest, h => by
    rw [SortedBids, List.pairwise_cons] at h
    obtain ⟨he, hrest⟩ := h
    simp only [insertLevel]
    by_cases h1 : e.price = o.price
    · rw [if_pos h1, SortedBids, List.pairwise_cons]
      refine ⟨?_, hrest⟩
      intro y hy
      by_cases h2 : e.orders.isEmpty = true
      · rw [if_pos h2]
        exact h1 ▸ he y hy
      · rw [if_neg h2]
        exact he y hy
    · rw [if_neg h1]
      by_cases h2 : bidBefore o.price e.price = true
      · rw [if_pos h2, SortedBids, List.pairwise_cons]
        have h2' : e.price < o.price := by simpa [bidBefore] using h2
        refine ⟨?_, List.Pairwise.cons he hrest⟩
        intro y hy
        show y.price < o.price
        rcases List.mem_cons.1 hy with h | h
        · subst h
          exact h2'
        · have := he y h
          omega
      · rw [if_neg h2, SortedBids, List.pairwise_cons]
        have h2' : ¬ e.price < o.price := by simpa [bidBefore] using h2
        have hlt : o.price < e.price := by
          rcases lt_trichotomy o.price e.price with h' | h' | h'
          · exact h'
          · exact absurd h'.symm h1
          · exact absurd h' h2'
        refine ⟨?_, insertLevel_sorted_bids o rest hrest⟩
        intro y hy
        rcases insertLevel_price_mem bidBefore o rest y hy with hp | hp
        · omega
        · obtain ⟨z, hz, hzp⟩ := List.mem_map.1 hp
          have := he z hz
          omega

/-- `insertLevel` with the ask comparator preserves the strictly
ascending price order. -/
theorem insertLevel_sorted_asks (o : Order) :
    ∀ ls : List OrderBookEntry, SortedAsks ls →
      SortedAsks (insertLevel askBefore o ls)
  | [], _ => by simp [insertLevel, SortedAsks]
  | e :: rest, h => by
    rw [SortedAsks, List.pairwise_cons] at h
    obtain ⟨he, hrest⟩ := h
    simp only [insertLevel]
    by_cases h1 : e.price = o.price
    · rw [if_pos h1, SortedAsks, List.pairwise_cons]
      refine ⟨?_, hrest⟩
      intro y hy
      by_cases h2 : e.orders.isEmpty = true
      · rw [if_pos h2]
        exact h1 ▸ he y hy
      · rw [if_neg h2]
        exact he y hy
    · rw [if_neg h1]
      by_cases h2 : askBefore o.price e.price = true
      · rw [if_pos h2, SortedAsks, List.pairwise_cons]
        have h2' : o.price < e.price := by simpa [askBefore] using h2
        refine ⟨?_, List.Pairwise.cons he hrest⟩
        intro y hy
        show o.price < y.price
        rcases List.mem_cons.1 hy with h | h
        · subst h
          exact h2'
        · have := he y h
          omega
      · rw [if_neg h2, SortedAsks, List.pairwise_cons]
        have h2' : ¬ o.price < e.price := by simpa [askBefore] using h2
        have hlt : e.price < o.price := by
          rcases lt_trichotomy o.price e.price with h' | h' | h'
          · exact absurd h' h2'
          · exact absurd h'.symm h1
          · exact h'
        refine ⟨?_, insertLevel_sorted_asks o rest hrest⟩
        intro y hy
        rcases insertLevel_price_mem askBefore o rest y hy with hp | hp
        · omega
        · obtain ⟨z, hz, hzp⟩ := List.mem_map.1 hp
          have := he z hz
          omega

/-! ### Order-removal lemmas -/

/-- The prices surviving `removeOrderFromLevels` form a subsequence of
the original prices. -/
theorem removeOrderFromLevels_price_sublist (ord : Order) :
    ∀ ls : List OrderBookEntry,
      List.Sublist ((removeOrderFromLevels ord ls).map (fun e => e.price))
        (ls.map (fun e => e.price))
  | [] => by simp [removeOrderFromLevels]
  | e :: rest => by
    simp only [removeOrderFromLevels]
    by_cases h1 : e.price = ord.price
    · rw [if_pos h1]
      rcases hro : removeOrderFromOrders ord.id e.orders with _ | ⟨f, os'⟩
      · exact List.Sublist.refl _
      · show List.Sublist
          ((if os' = [] then rest
            else (⟨e.price, e.total_quantity - f.quantity, os'⟩ : OrderBookEntry)
              :: rest).map (fun e => e.price))
          ((e :: rest).map (fun e => e.price))
        by_cases h2 : os' = []
        · rw [if_pos h2]
          simp only [List.map_cons]
          exact List.sublist_cons_self e.price (rest.map fun e => e.price)
        · rw [if_neg h2]
          simp only [List.map_cons]
          exact List.Sublist.refl _
    · rw [if_neg h1]
      simp only [List.map_cons]
      exact List.Sublist.cons₂ e.price (removeOrderFromLevels_price_sublist ord rest)

/-- `removeOrderFromLevels` never leaves an empty level behind. -/
theorem removeOrderFromLevels_nonempty (ord : Order) :
    ∀ ls : List OrderBookEntry, (∀ e ∈ ls, e.orders ≠ []) →
      ∀ x ∈ removeOrderFromLevels ord ls, x.orders ≠ []
  | [], _, x, hx => by simp [removeOrderFromLevels] at hx
  | e :: rest, hls, x, hx => by
    simp only [removeOrderFromLevels] at hx
    by_cases h1 : e.price = ord.price
    · rw [if_pos h1] at hx
      rcases hro : removeOrderFromOrders ord.id e.orders with _ | ⟨f, os'⟩
      · rw [hro] at hx
        replace hx : x ∈ e :: rest := hx
        exact hls x hx
      · rw [hro] at hx
        replace hx : x ∈ (if os' = [] then rest
            else (⟨e.price, e.total_quantity - f.quantity, os'⟩ : OrderBookEntry)
              :: rest) := hx
        by_cases h2 : os' = []
        · rw [if_pos h2] at hx
          exact hls x (List.mem_cons.2 (Or.inr hx))
        · rw [if_neg h2] at hx
          rcases List.mem_cons.1 hx with h | h
          · subst h
            exact h2
          · exact hls x (List.mem_cons.2 (Or.inr h))
    · rw [if_neg h1] at hx
      rcases List.mem_cons.1 hx with h | h
      · exact hls x (h ▸ List.mem_cons_self e rest)
      · exact removeOrderFromLevels_nonempty ord rest
          (fun y hy => hls y (List.mem_cons.2 (Or.inr hy))) x h

/-- Sorted bids stay sorted after a removal. -/
theorem removeOrderFromLevels_sorted_bids (ord : Order)
    (ls : List OrderBookEntry) (h : SortedBids ls) :
    SortedBids (removeOrderFromLevels ord ls) := by
  rw [SortedBids, ← List.pairwise_map (f := fun e : OrderBookEntry => e.price)
    (R := fun a b => b < a)]
  rw [SortedBids, ← List.pairwise_map (f := fun e : OrderBookEntry => e.price)
    (R := fun a b => b < a)] at h
  exact h.sublist (removeOrderFromLevels_price_sublist ord ls)

/-- Sorted asks stay sorted after a removal. -/
theorem removeOrderFromLevels_sorted_asks (ord : Order)
    (ls : List OrderBookEntry) (h : SortedAsks ls) :
    SortedAsks (removeOrderFromLevels ord ls) := by
  rw [SortedAsks, ← List.pairwise_map (f := fun e : OrderBookEntry => e.price)
    (R := fun a b => a < b)]
  rw [SortedAsks, ← List.pairwise_map (f := fun e : OrderBookEntry => e.price)
    (R := fun a b => a < b)] at h
  exact h.sublist (removeOrderFromLevels_price_sublist ord ls)

/-! ### Matching-step lemmas -/

theorem sideOrders_nil : sideOrders [] = 0 := rfl

theorem sideOrders_cons (e : OrderBookEntry) (l : List OrderBookEntry) :
    sideOrders (e :: l) = e.orders.length + sideOrders l := by
  simp [sideOrders]

/-- Inversion of a successful matching iteration: the shapes of the
sides before the step and the exact updated sides and emitted trade. -/
theorem matchStep_some_inv (now : Nat) (b b' : Book) (t : Trade)
    (h : matchStep now b = some (b', t)) :
    ∃ bb bs ba as_ bo bos so sos,
      b.bids = bb :: bs ∧ b.asks = ba :: as_ ∧
      bb.orders = bo :: bos ∧ ba.orders = so :: sos ∧
      ¬ bb.price < ba.price ∧
      t = ⟨bo.id, so.id,
            (if bo.timestamp < so.timestamp then bo.price else so.price),
            min bo.quantity so.quantity, now, b.symbol⟩ ∧
      b'.symbol = b.symbol ∧
      b'.bids = (if bo.quantity - min bo.quantity so.quantity = 0 then
                   (if bos = [] then bs
                    else ⟨bb.price, bb.total_quantity - min bo.quantity so.quantity,
                           bos⟩ :: bs)
                 else ⟨bb.price, bb.total_quantity - min bo.quantity so.quantity,
                        {bo with quantity := bo.quantity - min bo.quantity so.quantity}
                          :: bos⟩ :: bs) ∧
      b'.asks = (if so.quantity - min bo.quantity so.quantity = 0 then
                   (if sos = [] then as_
                    else ⟨ba.price, ba.total_quantity - min bo.quantity so.quantity,
                           sos⟩ :: as_)
                 else ⟨ba.price, ba.total_quantity - min bo.quantity so.quantity,
                        {so with quantity := so.quantity - min bo.quantity so.quantity}
                          :: sos⟩ :: as_) := by
  obtain ⟨sym, bids, asks, lk⟩ := b
  obtain _ | ⟨bb, bs⟩ := bids
  · simp [matchStep] at h
  obtain _ | ⟨ba, as_⟩ := asks
  · simp [matchStep] at h
  obtain ⟨bbp, bbq, bbords⟩ := bb
  obtain ⟨bap, baq, baords⟩ := ba
  obtain _ | ⟨bo, bos⟩ := bbords
  · simp [matchStep] at h
  obtain _ | ⟨so, sos⟩ := baords
  · simp [matchStep] at h
  simp only [matchStep] at h
  by_cases hp : bbp < bap
  · rw [if_pos hp] at h
    exact absurd h (by simp)
  · rw [if_neg hp] at h
    simp only [Option.some.injEq, Prod.mk.injEq] at h
    obtain ⟨hb', ht⟩ := h
    subst hb'
    subst ht
    exact ⟨⟨bbp, bbq, bo :: bos⟩, bs, ⟨bap, baq, so :: sos⟩, as_, bo, bos, so, sos,
      rfl, rfl, rfl, rfl, hp, rfl, rfl, rfl, rfl⟩

/-- Each matching iteration strictly reduces the number of resting
orders (at least one of the two front orders is fully filled, because
the trade quantity is the minimum of the two). -/
theorem matchStep_decreases (now : Nat) (b b' : Book) (t : Trade)
    (h : matchStep now b = some (b', t)) :
    totalOrders b' < totalOrders b := by
  obtain ⟨bb, bs, ba, as_, bo, bos, so, sos, hbids, hasks, hbo, hso, hp,
    ht, hsym, hb1, hb2⟩ := matchStep_some_inv now b b' t h
  have hkey : bo.quantity - min bo.quantity so.quantity = 0 ∨
      so.quantity - min bo.quantity so.quantity = 0 := by omega
  have hbbl : bb.orders.length = bos.length + 1 := by rw [hbo]; simp
  have hbal : ba.orders.length = sos.length + 1 := by rw [hso]; simp
  rw [totalOrders, totalOrders, hbids, hasks, hb1, hb2]
  split_ifs <;>
    simp_all [sideOrders_cons, List.length_nil] <;>
    omega

/-- A matching iteration preserves structural well-formedness. -/
theorem matchStep_WF (now : Nat) (b b' : Book) (t : Trade)
    (h : matchStep now b = some (b', t)) (hwf : WF b) : WF b' := by
  obtain ⟨bb, bs, ba, as_, bo, bos, so, sos, hbids, hasks, hbo, hso, hp,
    ht, hsym, hb1, hb2⟩ := matchStep_some_inv now b b' t h
  obtain ⟨hsb, hsa, hnb, hna⟩ := hwf
  rw [hbids] at hsb hnb
  rw [hasks] at hsa hna
  rw [SortedBids, List.pairwise_cons] at hsb
  rw [SortedAsks, List.pairwise_cons] at hsa
  obtain ⟨hsb1, hsb2⟩ := hsb
  obtain ⟨hsa1, hsa2⟩ := hsa
  refine ⟨?_, ?_, ?_, ?_⟩
  · rw [hb1]
    split_ifs with h1 h2
    · exact hsb2
    · rw [SortedBids, List.pairwise_cons]
      exact ⟨fun y hy => hsb1 y hy, hsb2⟩
    · rw [SortedBids, List.pairwise_cons]
      exact ⟨fun y hy => hsb1 y hy, hsb2⟩
  · rw [hb2]
    split_ifs with h1 h2
    · exact hsa2
    · rw [SortedAsks, List.pairwise_cons]
      exact ⟨fun y hy => hsa1 y hy, hsa2⟩
    · rw [SortedAsks, List.pairwise_cons]
      exact ⟨fun y hy => hsa1 y hy, hsa2⟩
  · rw [hb1]
    split_ifs with h1 h2
    · exact fun x hx => hnb x (List.mem_cons.2 (Or.inr hx))
    · intro x hx
      rcases List.mem_cons.1 hx with hx' | hx'
      · subst hx'
        exact h2
      · exact hnb x (List.mem_cons.2 (Or.inr hx'))
    · intro x hx
      rcases List.mem_cons.1 hx with hx' | hx'
      · subst hx'
        exact List.cons_ne_nil _ _
      · exact hnb x (List.mem_cons.2 (Or.inr hx'))
  · rw [hb2]
    split_ifs with h1 h2
    · exact fun x hx => hna x (List.mem_cons.2 (Or.inr hx))
    · intro x hx
      rcases List.mem_cons.1 hx with hx' | hx'
      · subst hx'
        exact h2
      · exact hna x (List.mem_cons.2 (Or.inr hx'))
    · intro x hx
      rcases List.mem_cons.1 hx with hx' | hx'
      · subst hx'
        exact List.cons_ne_nil _ _
      · exact hna x (List.mem_cons.2 (Or.inr hx'))

/-- Every price surviving a removal was already present. -/
theorem removeOrderFromLevels_price_subset (ord : Order)
    (ls : List OrderBookEntry) (x : OrderBookEntry)
    (hx : x ∈ removeOrderFromLevels ord ls) :
    ∃ z ∈ ls, x.price = z.price := by
  have h1 : x.price ∈ (removeOrderFromLevels ord ls).map (fun e => e.price) :=
    List.mem_map.2 ⟨x, hx, rfl⟩
  have h2 := (removeOrderFromLevels_price_sublist ord ls).subset h1
  obtain ⟨z, hz, hzp⟩ := List.mem_map.1 h2
  exact ⟨z, hz, hzp.symm⟩

/-- If a matching iteration does nothing on a well-formed book, the book
is quiescent: every bid price is strictly below every ask price. -/
theorem matchStep_none_quiescent (now : Nat) (b : Book) (hwf : WF b)
    (h : matchStep now b = none) : Quiescent b := by
  intro x hx y hy
  obtain ⟨hsb, hsa, hnb, hna⟩ := hwf
  cases hbids : b.bids with
  | nil =>
    rw [hbids] at hx
    exact absurd hx (List.not_mem_nil x)
  | cons bb bs =>
  cases hasks : b.asks with
  | nil =>
    rw [hasks] at hy
    exact absurd hy (List.not_mem_nil y)
  | cons ba as_ =>
  by_cases hp : bb.price < ba.price
  · rw [hbids] at hsb hx
    rw [hasks] at hsa hy
    rw [SortedBids, List.pairwise_cons] at hsb
    rw [SortedAsks, List.pairwise_cons] at hsa
    have hx' : x.price ≤ bb.price := by
      rcases List.mem_cons.1 hx with h' | h'
      · subst h'
        exact le_refl _
      · exact le_of_lt (hsb.1 x h')
    have hy' : ba.price ≤ y.price := by
      rcases List.mem_cons.1 hy with h' | h'
      · subst h'
        exact le_refl _
      · exact le_of_lt (hsa.1 y h')
    omega
  · exfalso
    have hbb : bb ∈ b.bids := hbids ▸ List.mem_cons_self bb bs
    have hba : ba ∈ b.asks := hasks ▸ List.mem_cons_self ba as_
    obtain ⟨bo, bos, hbo⟩ := List.exists_cons_of_ne_nil (hnb bb hbb)
    obtain ⟨so, sos, hso⟩ := List.exists_cons_of_ne_nil (hna ba hba)
    simp [matchStep, hbids, hasks, hbo, hso, hp] at h

/-- A book with no resting orders admits no matching iteration. -/
theorem matchStep_totalZero (now : Nat) (b : Book) (h : totalOrders b = 0) :
    matchStep now b = none := by
  obtain ⟨sym, bids, asks, lk⟩ := b
  obtain _ | ⟨bb, bs⟩ := bids
  · simp [matchStep]
  obtain _ | ⟨ba, as_⟩ := asks
  · simp [matchStep]
  obtain ⟨bbp, bbq, bbords⟩ := bb
  obtain _ | ⟨bo, bos⟩ := bbords
  · simp [matchStep]
  · exfalso
    simp [totalOrders, sideOrders] at h

/-- Well-formedness is preserved through the whole matching loop. -/
theorem matchOrdersFuel_WF : ∀ (fuel now : Nat) (b : Book), WF b →
    WF (matchOrdersFuel fuel now b).1
  | 0, now, b, hwf => by simpa [matchOrdersFuel] using hwf
  | fuel + 1, now, b, hwf => by
    cases h : matchStep now b with
    | none =>
      rw [matchOrdersFuel]
      simp only [h]
      exact hwf
    | some p =>
      obtain ⟨b', t⟩ := p
      have := matchOrdersFuel_WF fuel now b' (matchStep_WF now b b' t h hwf)
      simpa [matchOrdersFuel, h] using this

/-- `totalOrders b` steps of fuel always suffice: the loop result is a
true fixpoint of the matching iteration. -/
theorem matchOrdersFuel_fixpoint : ∀ (fuel now : Nat) (b : Book),
    totalOrders b ≤ fuel → matchStep now (matchOrdersFuel fuel now b).1 = none
  | 0, now, b, hle => by
    have h0 : totalOrders b = 0 := Nat.le_zero.1 hle
    simpa [matchOrdersFuel] using matchStep_totalZero now b h0
  | fuel + 1, now, b, hle => by
    cases h : matchStep now b with
    | none =>
      rw [matchOrdersFuel]
      simp only [h]
    | some p =>
      obtain ⟨b', t⟩ := p
      have hdec := matchStep_decreases now b b' t h
      have := matchOrdersFuel_fixpoint fuel now b' (by omega)
      simpa [matchOrdersFuel, h] using this

/-- `match_orders` preserves well-formedness. -/
theorem matchOrders_WF (now : Nat) (b : Book) (hwf : WF b) :
    WF (matchOrders now b).1 :=
  matchOrdersFuel_WF (totalOrders b) now b hwf

/-- `match_orders` runs to a true fixpoint. -/
theorem matchOrders_fixpoint (now : Nat) (b : Book) :
    matchStep now (matchOrders now b).1 = none :=
  matchOrdersFuel_fixpoint (totalOrders b) now b (le_refl _)

/-- `match_orders` leaves a well-formed book quiescent. -/
theorem matchOrders_quiescent (now : Nat) (b : Book) (hwf : WF b) :
    Quiescent (matchOrders now b).1 :=
  matchStep_none_quiescent now (matchOrders now b).1
    (matchOrders_WF now b hwf) (matchOrders_fixpoint now b)

/-- `add_order` returns a well-formed, quiescent book. -/
theorem addOrder_WF_quiescent (now : Nat) (o : Order) (b : Book)
    (hwf : WF b) :
    WF (addOrder now o b).1 ∧ Quiescent (addOrder now o b).1 := by
  obtain ⟨hsb, hsa, hnb, hna⟩ := hwf
  by_cases hs : o.side = OrderSide.BUY
  · have hwf1 : WF { b with
        order_lookup := insertLookup b.order_lookup o,
        bids := insertLevel bidBefore o b.bids } :=
      ⟨insertLevel_sorted_bids o b.bids hsb, hsa,
        insertLevel_nonempty bidBefore o b.bids hnb, hna⟩
    simp only [addOrder, if_pos hs]
    exact ⟨matchOrders_WF now _ hwf1, matchOrders_quiescent now _ hwf1⟩
  · have hwf1 : WF { b with
        order_lookup := insertLookup b.order_lookup o,
        asks := insertLevel askBefore o b.asks } :=
      ⟨hsb, insertLevel_sorted_asks o b.asks hsa,
        hnb, insertLevel_nonempty askBefore o b.asks hna⟩
    simp only [addOrder, if_neg hs]
    exact ⟨matchOrders_WF now _ hwf1, matchOrders_quiescent now _ hwf1⟩

/-- `remove_order_from_book` preserves well-formedness. -/
theorem removeOrderFromBook_WF (o : Order) (b : Book) (hwf : WF b) :
    WF (removeOrderFromBook o b) := by
  obtain ⟨hsb, hsa, hnb, hna⟩ := hwf
  by_cases hs : o.side = OrderSide.BUY
  · simp only [removeOrderFromBook, if_pos hs]
    exact ⟨removeOrderFromLevels_sorted_bids o b.bids hsb, hsa,
      removeOrderFromLevels_nonempty o b.bids hnb, hna⟩
  · simp only [removeOrderFromBook, if_neg hs]
    exact ⟨hsb, removeOrderFromLevels_sorted_asks o b.asks hsa,
      hnb, removeOrderFromLevels_nonempty o b.asks hna⟩

/-- `remove_order_from_book` preserves quiescence (removing levels never
creates a crossing). -/
theorem removeOrderFromBook_quiescent (o : Order) (b : Book)
    (hq : Quiescent b) : Quiescent (removeOrderFromBook o b) := by
  by_cases hs : o.side = OrderSide.BUY
  · simp only [removeOrderFromBook, if_pos hs]
    intro x hx y hy
    obtain ⟨z, hz, hzp⟩ := removeOrderFromLevels_price_subset o b.bids x hx
    exact hzp ▸ hq z hz y hy
  · simp only [removeOrderFromBook, if_neg hs]
    intro x hx y hy
    obtain ⟨z, hz, hzp⟩ := removeOrderFromLevels_price_subset o b.asks y hy
    exact hzp ▸ hq x hx z hz

/-- `cancel_order` preserves well-formedness and quiescence. -/
theorem cancelOrder_WF_quiescent (id : Nat) (b : Book)
    (hwf : WF b) (hq : Quiescent b) :
    WF (cancelOrder id b) ∧ Quiescent (cancelOrder id b) := by
  cases h : b.order_lookup id with
  | none =>
    simp only [cancelOrder, h]
    exact ⟨hwf, hq⟩
  | some o =>
    simp only [cancelOrder, h]
    exact ⟨removeOrderFromBook_WF o b hwf, removeOrderFromBook_quiescent o b hq⟩

/-- `modify_order` returns a well-formed, quiescent book. -/
theorem modifyOrder_WF_quiescent (now : Nat) (id : Nat) (p : Int) (q : Nat)
    (b : Book) (hwf : WF b) (hq : Quiescent b) :
    WF (modifyOrder now id p q b).1 ∧ Quiescent (modifyOrder now id p q b).1 := by
  cases h : b.order_lookup id with
  | none =>
    simp only [modifyOrder, h]
    exact ⟨hwf, hq⟩
  | some old =>
    simp only [modifyOrder, h]
    exact addOrder_WF_quiescent now _ _ (removeOrderFromBook_WF old b hwf)

/-- Every engine operation preserves the combined invariant. -/
theorem applyOp_WF_quiescent (op : Op) (b : Book)
    (hwf : WF b) (hq : Quiescent b) :
    WF (applyOp op b) ∧ Quiescent (applyOp op b) := by
  cases op with
  | add now o =>
    simpa [applyOp, applyOpTr] using addOrder_WF_quiescent now o b hwf
  | cancel id =>
    simpa [applyOp, applyOpTr] using cancelOrder_WF_quiescent id b hwf hq
  | modify now id p q =>
    simpa [applyOp, applyOpTr] using modifyOrder_WF_quiescent now id p q b hwf hq

/-- The invariant holds after any operation sequence. -/
theorem applyOps_WF_quiescent : ∀ (ops : List Op) (b : Book),
    WF b → Quiescent b → WF (applyOps ops b) ∧ Quiescent (applyOps ops b)
  | [], b, hwf, hq => ⟨hwf, hq⟩
  | op :: rest, b, hwf, hq => by
    have h1 := applyOp_WF_quiescent op b hwf hq
    have h2 := applyOps_WF_quiescent rest (applyOp op b) h1.1 h1.2
    simpa [applyOps, List.foldl_cons] using h2

/-- C3: starting from the empty book, after any finite sequence of
add/cancel/modify operations returns control, no price level on the bid
side has a price greater than or equal to the price of any level on the
ask side. -/
theorem C3_book_never_crossed (sym : String) (ops : List Op) :
    ∀ bb ∈ (applyOps ops (emptyBook sym)).bids,
      ∀ ba ∈ (applyOps ops (emptyBook sym)).asks, bb.price < ba.price := by
  have hwf : WF (emptyBook sym) :=
    ⟨List.Pairwise.nil, List.Pairwise.nil,
      fun e he => absurd he (List.not_mem_nil e),
      fun e he => absurd he (List.not_mem_nil e)⟩
  have hq : Quiescent (emptyBook sym) :=
    fun bb hbb => absurd hbb (List.not_mem_nil bb)
  exact (applyOps_WF_quiescent ops (emptyBook sym) hwf hq).2

/-- Witness for C3: a two-order history leaving one bid and one ask. -/
theorem C3_witness :
    (⟨90, 5, [⟨1, 90, 5, OrderSide.BUY, OrderType.LIMIT, 1, "S"⟩]⟩ : OrderBookEntry)
        ∈ (applyOps [Op.add 1 ⟨1, 90, 5, OrderSide.BUY, OrderType.LIMIT, 1, "S"⟩,
            Op.add 2 ⟨2, 100, 5, OrderSide.SELL, OrderType.LIMIT, 2, "S"⟩]
            (emptyBook "S")).bids ∧
    (⟨100, 5, [⟨2, 100, 5, OrderSide.SELL, OrderType.LIMIT, 2, "S"⟩]⟩ : OrderBookEntry)
        ∈ (applyOps [Op.add 1 ⟨1, 90, 5, OrderSide.BUY, OrderType.LIMIT, 1, "S"⟩,
            Op.add 2 ⟨2, 100, 5, OrderSide.SELL, OrderType.LIMIT, 2, "S"⟩]
            (emptyBook "S")).asks ∧
    (90 : Int) < 100 :=
  ⟨by decide, by decide,
    C3_book_never_crossed "S"
      [Op.add 1 ⟨1, 90, 5, OrderSide.BUY, OrderType.LIMIT, 1, "S"⟩,
       Op.add 2 ⟨2, 100, 5, OrderSide.SELL, OrderType.LIMIT, 2, "S"⟩]
      ⟨90, 5, [⟨1, 90, 5, OrderSide.BUY, OrderType.LIMIT, 1, "S"⟩]⟩ (by decide)
      ⟨100, 5, [⟨2, 100, 5, OrderSide.SELL, OrderType.LIMIT, 2, "S"⟩]⟩ (by decide)⟩

/-- The trades the matching loop emits are exactly the trades of its
execution trace, in order. -/
theorem matchOrdersFuel_trades_eq_trace : ∀ (fuel now : Nat) (b : Book),
    (matchOrdersFuel fuel now b).2 = (matchTrace fuel now b).map (fun p => p.2)
  | 0, _, _ => rfl
  | fuel + 1, now, b => by
    cases h : matchStep now b with
    | none =>
      rw [matchOrdersFuel, matchTrace]
      simp [h]
    | some p =>
      obtain ⟨b', t⟩ := p
      rw [matchOrdersFuel, matchTrace]
      simp [h, matchOrdersFuel_trades_eq_trace fuel now b']

/-- Every entry of the execution trace records a book on which the
matching iteration really fires and really emits that trade. -/
theorem matchTrace_mem_step : ∀ (fuel now : Nat) (b c : Book) (t : Trade),
    (c, t) ∈ matchTrace fuel now b → ∃ c', matchStep now c = some (c', t)
  | 0, now, b, c, t, h => by simp [matchTrace] at h
  | fuel + 1, now, b, c, t, h => by
    cases hs : matchStep now b with
    | none =>
      rw [matchTrace] at h
      simp only [hs] at h
      exact absurd h (List.not_mem_nil _)
    | some p =>
      obtain ⟨b', t'⟩ := p
      rw [matchTrace] at h
      simp only [hs] at h
      rcases List.mem_cons.1 h with h' | h'
      · rw [Prod.mk.injEq] at h'
        obtain ⟨hc, ht⟩ := h'
        subst hc
        subst ht
        exact ⟨b', hs⟩
      · exact matchTrace_mem_step fuel now b' c t h'

/-- A firing matching iteration prices its trade by the *actual* front
orders of the book it acts on: the strictly earlier order's price, and
the Sell order's price on a timestamp tie. -/
theorem matchStep_trade_price (now : Nat) (c c' : Book) (t : Trade)
    (h : matchStep now c = some (c', t))
    (bb : OrderBookEntry) (bs : List OrderBookEntry)
    (bo : Order) (bos : List Order)
    (ba : OrderBookEntry) (as_ : List OrderBookEntry)
    (so : Order) (sos : List Order)
    (hbids : c.bids = bb :: bs) (hbo : bb.orders = bo :: bos)
    (hasks : c.asks = ba :: as_) (hso : ba.orders = so :: sos) :
    (bo.timestamp < so.timestamp → t.price = bo.price) ∧
    (so.timestamp < bo.timestamp → t.price = so.price) ∧
    (bo.timestamp = so.timestamp → t.price = so.price) := by
  obtain ⟨bb', bs', ba', as'', bo', bos', so', sos', hbids', hasks', hbo', hso',
    hp, htr, hsym, hb1, hb2⟩ := matchStep_some_inv now c c' t h
  rw [hbids] at hbids'
  injection hbids' with hbb hbs
  subst hbb
  subst hbs
  rw [hbo] at hbo'
  injection hbo' with hbo2 hbos
  subst hbo2
  subst hbos
  rw [hasks] at hasks'
  injection hasks' with hba has
  subst hba
  subst has
  rw [hso] at hso'
  injection hso' with hso2 hsos
  subst hso2
  subst hsos
  subst htr
  refine ⟨?_, ?_, ?_⟩
  · intro hlt
    simp [hlt]
  · intro hlt
    have hnlt : ¬ bo.timestamp < so.timestamp := by omega
    simp [hnlt]
  · intro heq
    have hnlt : ¬ bo.timestamp < so.timestamp := by omega
    simp [hnlt]

/-- C1 (amended): every trade `match_orders` emits comes from one of the
actual matching iterations recorded in `matchTrace`, and each such
iteration prices its trade by the actual front orders of the book it
acted on — the strictly earlier (resting) order's price; when the two
timestamps are equal, the Sell order's price. -/
theorem C1_trade_price_rule (now : Nat) (b : Book) :
    (matchOrders now b).2 = (matchTrace (totalOrders b) now b).map (fun p => p.2) ∧
    (∀ (c : Book) (t : Trade), (c, t) ∈ matchTrace (totalOrders b) now b →
      ∀ (bb : OrderBookEntry) (bs : List OrderBookEntry)
        (bo : Order) (bos : List Order)
        (ba : OrderBookEntry) (as_ : List OrderBookEntry)
        (so : Order) (sos : List Order),
        c.bids = bb :: bs → bb.orders = bo :: bos →
        c.asks = ba :: as_ → ba.orders = so :: sos →
        (bo.timestamp < so.timestamp → t.price = bo.price) ∧
        (so.timestamp < bo.timestamp → t.price = so.price) ∧
        (bo.timestamp = so.timestamp → t.price = so.price)) := by
  constructor
  · exact matchOrdersFuel_trades_eq_trace (totalOrders b) now b
  · intro c t hmem bb bs bo bos ba as_ so sos hbids hbo hasks hso
    obtain ⟨c', hstep⟩ := matchTrace_mem_step (totalOrders b) now b c t hmem
    exact matchStep_trade_price now c c' t hstep bb bs bo bos ba as_ so sos
      hbids hbo hasks hso

/-- Witness for C1: on the concrete tied-timestamp book, the executed
match appears in the trace and the rule prices it at the Sell order's
100. -/
theorem C1_witness :
    (tieBook, tieTrade) ∈ matchTrace (totalOrders tieBook) 7 tieBook ∧
    tieTrade.price = (100 : Int) :=
  ⟨by
    rw [show matchTrace (totalOrders tieBook) 7 tieBook
        = [(tieBook, tieTrade)] from rfl]
    exact List.mem_singleton.2 rfl,
   ((C1_trade_price_rule 7 tieBook).2 tieBook tieTrade
      (by
        rw [show matchTrace (totalOrders tieBook) 7 tieBook
            = [(tieBook, tieTrade)] from rfl]
        exact List.mem_singleton.2 rfl)
      ⟨101, 5, [⟨1, 101, 5, OrderSide.BUY, OrderType.LIMIT, 5, "BTCUSD"⟩]⟩ []
      ⟨1, 101, 5, OrderSide.BUY, OrderType.LIMIT, 5, "BTCUSD"⟩ []
      ⟨100, 5, [⟨2, 100, 5, OrderSide.SELL, OrderType.LIMIT, 5, "BTCUSD"⟩]⟩ []
      ⟨2, 100, 5, OrderSide.SELL, OrderType.LIMIT, 5, "BTCUSD"⟩ []
      rfl rfl rfl rfl).2.2 rfl⟩

/-- `add_order` is insensitive to anything in the lookup map except what
it overwrites: books differing only in a lookup whose post-insert states
agree produce identical results. -/
theorem addOrder_lookup_congr (now : Nat) (o : Order) (sym : String)
    (bids asks : List OrderBookEntry) (lk1 lk2 : Nat → Option Order)
    (h : insertLookup lk1 o = insertLookup lk2 o) :
    addOrder now o ⟨sym, bids, asks, lk1⟩ = addOrder now o ⟨sym, bids, asks, lk2⟩ := by
  simp only [addOrder]
  split_ifs with hs
  · rw [h]
  · rw [h]

/-- C7: for a live id (the stored order's id field matching the key, as
always in reachable states), `modify_order(id, p, q)` produces exactly the
state and trades of `cancel_order(id)` followed by `add_order` of an order
with the same id, side, type and symbol, price `p`, quantity `q`, and the
fresh timestamp; on a non-live id it is a no-op emitting nothing. -/
theorem C7_modify_eq_cancel_add (now : Nat) (id : Nat) (p : Int) (q : Nat)
    (b : Book) :
    (∀ old, b.order_lookup id = some old → old.id = id →
      modifyOrder now id p q b =
        addOrder now { old with price := p, quantity := q, timestamp := now }
          (cancelOrder id b)) ∧
    (b.order_lookup id = none → modifyOrder now id p q b = (b, [])) := by
  constructor
  · intro old h hid
    simp only [modifyOrder, cancelOrder, h]
    generalize removeOrderFromBook old b = b1
    obtain ⟨s1, bd1, a1, l1⟩ := b1
    have hlk : insertLookup l1 { old with price := p, quantity := q, timestamp := now }
        = insertLookup (eraseLookup l1 id)
            { old with price := p, quantity := q, timestamp := now } := by
      funext i
      simp only [insertLookup, eraseLookup]
      by_cases h1 : i = ({ old with price := p, quantity := q, timestamp := now } : Order).id
      · rw [if_pos h1, if_pos h1]
      · rw [if_neg h1, if_neg h1]
        have h2 : ¬ i = id := fun hcon => h1 (by rw [hcon]; exact hid.symm)
        rw [if_neg h2]
    exact addOrder_lookup_congr now _ s1 bd1 a1 l1 (eraseLookup l1 id) hlk
  · intro h
    simp [modifyOrder, h]

/-- Witness for C7 at a concrete one-order book. -/
theorem C7_witness :
    modifyOrder 9 1 95 7 ⟨"S",
        [⟨100, 5, [⟨1, 100, 5, OrderSide.BUY, OrderType.LIMIT, 1, "S"⟩]⟩], [],
        fun i => if i = 1 then some ⟨1, 100, 5, OrderSide.BUY, OrderType.LIMIT, 1, "S"⟩
                 else none⟩
      = addOrder 9 { (⟨1, 100, 5, OrderSide.BUY, OrderType.LIMIT, 1, "S"⟩ : Order) with
            price := 95, quantity := 7, timestamp := 9 }
          (cancelOrder 1 ⟨"S",
            [⟨100, 5, [⟨1, 100, 5, OrderSide.BUY, OrderType.LIMIT, 1, "S"⟩]⟩], [],
            fun i => if i = 1 then some ⟨1, 100, 5, OrderSide.BUY, OrderType.LIMIT, 1, "S"⟩
                     else none⟩) :=
  (C7_modify_eq_cancel_add 9 1 95 7 _).1
    ⟨1, 100, 5, OrderSide.BUY, OrderType.LIMIT, 1, "S"⟩ (by decide) (by decide)

/-! ### Type-erasure lemmas (market-order handling) -/

/-- Erasing lookup entries commutes with type-stripping. -/
theorem strip_eraseLookup (m : Nat → Option Order) (id : Nat) :
    eraseLookup (fun i => (m i).map stripType) id
      = fun i => ((eraseLookup m id) i).map stripType := by
  funext i
  simp only [eraseLookup]
  by_cases h : i = id
  · simp [h]
  · simp [h]

/-- Inserting a lookup entry commutes with type-stripping. -/
theorem strip_insertLookup (m : Nat → Option Order) (o : Order) :
    insertLookup (fun i => (m i).map stripType) (stripType o)
      = fun i => ((insertLookup m o) i).map stripType := by
  funext i
  simp only [insertLookup]
  by_cases h : i = o.id
  · simp [stripType, h]
  · simp [stripType, h]

/-- Level insertion commutes with type-stripping. -/
theorem strip_insertLevel (before : Int → Int → Bool) (o : Order) :
    ∀ ls : List OrderBookEntry,
      insertLevel before (stripType o) (ls.map stripEntry)
        = (insertLevel before o ls).map stripEntry
  | [] => by simp [insertLevel, stripEntry, stripType]
  | e :: rest => by
    obtain ⟨ep, eq_, eords⟩ := e
    simp only [List.map_cons, insertLevel, stripEntry, stripType]
    by_cases h1 : ep = o.price
    · simp only [if_pos h1]
      cases eords <;> simp [stripEntry, stripType]
    · simp only [if_neg h1]
      by_cases h2 : before o.price ep = true
      · simp [h2, stripEntry, stripType]
      · have hrec := strip_insertLevel before o rest
        simp only [stripType] at hrec
        simp [h2, stripEntry, stripType, hrec]

/-- A matching iteration commutes with type-stripping: `match_orders`
never reads `Order::type`. -/
theorem strip_matchStep (now : Nat) (b : Book) :
    matchStep now (stripBook b)
      = Option.map (fun p => (stripBook p.1, p.2)) (matchStep now b) := by
  obtain ⟨sym, bids, asks, lk⟩ := b
  obtain _ | ⟨bb, bs⟩ := bids
  · simp [matchStep, stripBook]
  obtain _ | ⟨ba, as_⟩ := asks
  · simp [matchStep, stripBook]
  obtain ⟨bbp, bbq, bbords⟩ := bb
  obtain ⟨bap, baq, baords⟩ := ba
  obtain _ | ⟨bo, bos⟩ := bbords
  · simp [matchStep, stripBook, stripEntry]
  obtain _ | ⟨so, sos⟩ := baords
  · simp [matchStep, stripBook, stripEntry]
  by_cases hp : bbp < bap
  · simp [matchStep, stripBook, stripEntry, hp]
  · simp only [matchStep, stripBook, stripEntry, stripType, List.map_cons, if_neg hp]
    by_cases hbq : bo.quantity - min bo.quantity so.quantity = 0 <;>
      by_cases hsq : so.quantity - min bo.quantity so.quantity = 0 <;>
        by_cases hbe : bos = [] <;>
          by_cases hse : sos = [] <;>
            simp [hbq, hsq, hbe, hse, strip_eraseLookup, stripEntry, stripType,
              List.map_eq_nil_iff]

/-- Stripping does not change the number of resting orders. -/
theorem strip_totalOrders (b : Book) :
    totalOrders (stripBook b) = totalOrders b := by
  obtain ⟨sym, bids, asks, lk⟩ := b
  have hc : ∀ ls : List OrderBookEntry,
      (ls.map stripEntry).map (fun e => e.orders.length)
        = ls.map (fun e => e.orders.length) := by
    intro ls
    induction ls with
    | nil => rfl
    | cons e r ih => simp [stripEntry, ih]
  simp [totalOrders, stripBook, sideOrders, hc]

/-- The whole matching loop commutes with type-stripping. -/
theorem strip_matchOrdersFuel : ∀ (fuel now : Nat) (b : Book),
    matchOrdersFuel fuel now (stripBook b)
      = (stripBook (matchOrdersFuel fuel now b).1, (matchOrdersFuel fuel now b).2)
  | 0, now, b => rfl
  | fuel + 1, now, b => by
    cases h : matchStep now b with
    | none =>
      have hs : matchStep now (stripBook b) = none := by
        rw [strip_matchStep, h]
        rfl
      rw [matchOrdersFuel, matchOrdersFuel]
      simp only [h, hs]
    | some p =>
      obtain ⟨b', t⟩ := p
      have hs : matchStep now (stripBook b) = some (stripBook b', t) := by
        rw [strip_matchStep, h]
        rfl
      rw [matchOrdersFuel, matchOrdersFuel]
      simp only [h, hs, strip_matchOrdersFuel fuel now b']

/-- `match_orders` commutes with type-stripping. -/
theorem strip_matchOrders (now : Nat) (b : Book) :
    matchOrders now (stripBook b)
      = (stripBook (matchOrders now b).1, (matchOrders now b).2) := by
  rw [matchOrders, matchOrders, strip_totalOrders]
  exact strip_matchOrdersFuel (totalOrders b) now b

/-- `add_order` commutes with type-stripping: the stored type is carried
along but never consulted. -/
theorem strip_addOrder (now : Nat) (o : Order) (b : Book) :
    addOrder now (stripType o) (stripBook b)
      = (stripBook (addOrder now o b).1, (addOrder now o b).2) := by
  by_cases hs : o.side = OrderSide.BUY
  · have hss : (stripType o).side = OrderSide.BUY := hs
    simp only [addOrder, if_pos hs, if_pos hss]
    have hb : ({ stripBook b with
        order_lookup := insertLookup (stripBook b).order_lookup (stripType o),
        bids := insertLevel bidBefore (stripType o) (stripBook b).bids } : Book)
        = stripBook { b with
            order_lookup := insertLookup b.order_lookup o,
            bids := insertLevel bidBefore o b.bids } := by
      simp only [stripBook]
      rw [strip_insertLevel, strip_insertLookup]
    rw [hb, strip_matchOrders]
  · have hss : ¬ (stripType o).side = OrderSide.BUY := hs
    simp only [addOrder, if_neg hs, if_neg hss]
    have hb : ({ stripBook b with
        order_lookup := insertLookup (stripBook b).order_lookup (stripType o),
        asks := insertLevel askBefore (stripType o) (stripBook b).asks } : Book)
        = stripBook { b with
            order_lookup := insertLookup b.order_lookup o,
            asks := insertLevel askBefore o b.asks } := by
      simp only [stripBook]
      rw [strip_insertLevel, strip_insertLookup]
    rw [hb, strip_matchOrders]

/-- C4 counterexample: a Market Buy priced below the best ask is *not*
treated as a limit order at +∞.  Submitted against a resting ask at 100,
the Market Buy(id=2, price=90, qty=3) produces no trade (the claim's +∞
treatment would fully fill it at 100, leaving no residue), and its whole
quantity rests on the bid side instead of being discarded. -/
theorem C4_counterexample_market_rests :
    (addOrder 2 ⟨2, 90, 3, OrderSide.BUY, OrderType.MARKET, 2, "S"⟩
        (addOrder 1 ⟨1, 100, 5, OrderSide.SELL, OrderType.LIMIT, 1, "S"⟩
          (emptyBook "S")).1).2 = [] ∧
    (addOrder 2 ⟨2, 90, 3, OrderSide.BUY, OrderType.MARKET, 2, "S"⟩
        (addOrder 1 ⟨1, 100, 5, OrderSide.SELL, OrderType.LIMIT, 1, "S"⟩
          (emptyBook "S")).1).1.bids
      = [⟨90, 3, [⟨2, 90, 3, OrderSide.BUY, OrderType.MARKET, 2, "S"⟩]⟩] ∧
    (addOrder 2 ⟨2, 90, 3, OrderSide.BUY, OrderType.MARKET, 2, "S"⟩
        (addOrder 1 ⟨1, 100, 5, OrderSide.SELL, OrderType.LIMIT, 1, "S"⟩
          (emptyBook "S")).1).1.order_lookup 2
      = some ⟨2, 90, 3, OrderSide.BUY, OrderType.MARKET, 2, "S"⟩ := by
  refine ⟨by decide, by decide, by decide⟩

/-- C4 (amended): `add_order` ignores `Order::type` entirely — an order
of type Market is handled exactly like the same order of type Limit
(matching at its stated price field, residue resting on the book): the
emitted trades coincide and the resulting books agree up to the stored
(never-consulted) type fields. -/
theorem C4_market_ignored (now : Nat) (o : Order) (b : Book) :
    (addOrder now { o with type := OrderType.MARKET } b).2
      = (addOrder now { o with type := OrderType.LIMIT } b).2 ∧
    stripBook (addOrder now { o with type := OrderType.MARKET } b).1
      = stripBook (addOrder now { o with type := OrderType.LIMIT } b).1 := by
  have h1 := strip_addOrder now { o with type := OrderType.MARKET } b
  have h2 := strip_addOrder now { o with type := OrderType.LIMIT } b
  have he : stripType { o with type := OrderType.MARKET }
      = stripType { o with type := OrderType.LIMIT } := rfl
  rw [he] at h1
  have h3 := h1.symm.trans h2
  exact ⟨(Prod.ext_iff.1 h3).2, (Prod.ext_iff.1 h3).1⟩

end HFT
